import Mathlib

/-!
Verification of the `lax` LAPACK-adaptation layer: eigenvalue-solver and
least-squares dispatch logic from `src/lax/src/eig.rs`,
`src/lax/src/least_squares.rs` and `src/lax/src/lib.rs`.

The native kernels (`*geev`, `*gelsd`) are opaque collaborators; they are
modelled as oracles supplying the outputs each call would write, including
the integer status code.  Real scalars are modelled by `ℚ` (the claims under
verification are about control flow, index bookkeeping and data movement,
never about rounding), and complex scalars by pairs of rationals.
-/

namespace Lax

/-- Modelled from the spec: `MatrixLayout` lives in `layout.rs`, which is not
under `src/`.  The spec describes it as tagged `RowMajor{rows, stride}`
(Rust variant `C`) or `ColMajor{cols, stride}` (Rust variant `F`), with
`(n_rows, n_cols)` accessors; for a contiguous matrix the stride equals the
other dimension.  Fields are `Int`, mirroring the Rust `i32` fields. -/
inductive MatrixLayout
  | C (row lda : Int)
  | F (col lda : Int)
  deriving DecidableEq, Repr

/-- Modelled from the spec: the `(n_rows, n_cols)` accessor of `MatrixLayout`
(`layout.rs`, not under `src/`): for row-major the row count is the tag field
and the column count the stride; for column-major the other way round. -/
def MatrixLayout.size : MatrixLayout → Int × Int
  | .C row lda => (row, lda)
  | .F col lda => (lda, col)

/-- Modelled from the spec: the `resized` operation of `MatrixLayout`
(`layout.rs`, not under `src/`): reinterpret the row/column count while
keeping majorness. -/
def MatrixLayout.resized : MatrixLayout → Int → Int → MatrixLayout
  | .C _ _, row, col => .C row col
  | .F _ _, row, col => .F col row

/-- Whether a layout is row-major (the Rust `C` variant). -/
def MatrixLayout.isC : MatrixLayout → Bool
  | .C _ _ => true
  | .F _ _ => false

/-- Modelled from the spec: the eigenvector job-control flag `JobEv`
(`flags.rs`, not under `src/`); `eig.rs` uses the variants `Calc` and `Not`,
the predicate `is_calc`, and a `then`-style conditional allocation. -/
inductive JobEv
  | Calc
  | Not
  deriving DecidableEq, Repr

/-- `JobEv::is_calc`. -/
def JobEv.isCalc : JobEv → Bool
  | .Calc => true
  | .Not => false

/-- `jobv.then(|| x)`: allocate `x` only when the flag requests computation. -/
def JobEv.calcThen {α : Type} (j : JobEv) (x : α) : Option α :=
  if j.isCalc then some x else none

/-- Typed failures surfaced from kernel status codes (spec §7). -/
inductive LapackError
  | invalidValue (argPos : Int)
  | computationalFailure (code : Int)
  deriving DecidableEq, Repr

/-- Modelled from the spec: `as_lapack_result` lives in `error.rs`, which is
not under `src/`.  Status `0` is success; status `< 0` is an invalid-argument
failure identifying the negated argument position; status `> 0` is a
computational failure carrying the code. -/
def as_lapack_result (info : Int) : Except LapackError Unit :=
  if info = 0 then .ok ()
  else if info < 0 then .error (.invalidValue (-info))
  else .error (.computationalFailure info)

/-- Complex scalar over exact rationals. -/
structure Cx where
  re : ℚ
  im : ℚ
  deriving DecidableEq, Repr

/-- Complex conjugation, as performed elementwise by `c.im = -c.im`. -/
def Cx.conj (z : Cx) : Cx := ⟨z.re, -z.im⟩

/-- Job-flag selection of `Eig_::eig` (`src/lax/src/eig.rs` lines 36–43 and
144–151, identical in the complex and real macro bodies): with `calc_v`,
row-major requests only the left-eigenvector pass and column-major only the
right; without `calc_v`, neither. -/
def eigJobFlags (calc_v : Bool) (l : MatrixLayout) : JobEv × JobEv :=
  if calc_v then
    match l with
    | .C _ _ => (JobEv.Calc, JobEv.Not)
    | .F _ _ => (JobEv.Not, JobEv.Calc)
  else (JobEv.Not, JobEv.Not)

/-- Outputs a `zgeev_`/`cgeev_` execution call writes: the eigenvalue array,
the left/right eigenvector blocks (read only when the matching job flag
requested them) and the status code. -/
structure GeevCxOut where
  eigs : List Cx
  vl : List Cx
  vr : List Cx
  info : Int

/-- Oracle for one complex eigensolver invocation pair: the probe call's
status, the probe-reported work size, and the execution call's outputs. -/
structure KernelCx where
  probeInfo : Int
  probeLwork : Nat
  run : GeevCxOut

/-- The complex-scalar body of `Eig_::eig` (`src/lax/src/eig.rs` lines
20–111): select job flags by layout, probe, check status, execute, check
status, then — when left eigenvectors were computed — negate every element's
imaginary component in place, and return `(eigs, vr.or(vl).unwrap_or(zero))`. -/
def eigComplex (k : KernelCx) (calc_v : Bool) (l : MatrixLayout) :
    Except LapackError (List Cx × List Cx) :=
  let flags := eigJobFlags calc_v l
  let jobvl := flags.1
  let jobvr := flags.2
  match as_lapack_result k.probeInfo with
  | .error e => .error e
  | .ok _ =>
    match as_lapack_result k.run.info with
    | .error e => .error e
    | .ok _ =>
      let vl : Option (List Cx) := jobvl.calcThen k.run.vl
      let vr : Option (List Cx) := jobvr.calcThen k.run.vr
      let vl : Option (List Cx) :=
        if jobvl.isCalc then vl.map (List.map Cx.conj) else vl
      .ok (k.run.eigs, (vr.or vl).getD [])

/-- C3: on the complex path with a row-major layout and `calc_v = true`, a
successful run returns the left-eigenvector block with every element's
imaginary component negated as the eigenvectors, and the eigenvalue array
unmodified. -/
theorem C3_complex_row_major_conjugates_vl (k : KernelCx) (row lda : Int)
    (hp : k.probeInfo = 0) (hr : k.run.info = 0) :
    eigComplex k true (.C row lda) = .ok (k.run.eigs, k.run.vl.map Cx.conj) := by
  simp [eigComplex, as_lapack_result, hp, hr, eigJobFlags, JobEv.calcThen,
    JobEv.isCalc, Option.or]

/-- Witness for C3 at a concrete kernel outcome. -/
theorem C3_complex_row_major_conjugates_vl_witness :
    eigComplex ⟨0, 1, ⟨[⟨1, 2⟩], [⟨3, 4⟩, ⟨5, -6⟩], [], 0⟩⟩ true (.C 1 1) =
      .ok ([⟨1, 2⟩], [⟨3, -4⟩, ⟨5, 6⟩]) :=
  C3_complex_row_major_conjugates_vl ⟨0, 1, ⟨[⟨1, 2⟩], [⟨3, 4⟩, ⟨5, -6⟩], [], 0⟩⟩
    1 1 rfl rfl

/-- C1: with `calc_v = true` a row-major layout selects
`(jobvl, jobvr) = (Calc, Not)` and a column-major layout selects
`(Not, Calc)`; with `calc_v = false` both flags are `Not`, for every layout. -/
theorem C1_eig_job_flags_by_layout :
    (∀ row lda : Int, eigJobFlags true (.C row lda) = (JobEv.Calc, JobEv.Not)) ∧
    (∀ col lda : Int, eigJobFlags true (.F col lda) = (JobEv.Not, JobEv.Calc)) ∧
    (∀ l : MatrixLayout, eigJobFlags false l = (JobEv.Not, JobEv.Not)) := by
  refine ⟨fun _ _ => rfl, fun _ _ => rfl, fun l => ?_⟩
  cases l <;> rfl

/-- Outputs a `dgeev_`/`sgeev_` execution call writes: the parallel real and
imaginary eigenvalue arrays, the left/right eigenvector blocks (column-major,
`n * n` real entries), and the status code. -/
structure GeevReOut where
  eigRe : List ℚ
  eigIm : List ℚ
  vl : List ℚ
  vr : List ℚ
  info : Int

/-- Oracle for one real eigensolver invocation pair. -/
structure KernelRe where
  probeInfo : Int
  probeLwork : Nat
  run : GeevReOut

/-- One column of a column-major `n × n` real block: entry `row` is
`v[row + col * n]` (`src/lax/src/eig.rs` lines 245–247, 253–255). -/
def colOf (v : List ℚ) (n col : Nat) : List ℚ :=
  (List.range n).map fun row => v.getD (row + col * n) 0

/-- The eigenvector-reconstruction loop of the real `Eig_::eig`
(`src/lax/src/eig.rs` lines 241–264), producing the list of complex columns
from scan position `col` on; `rem` is the number of columns still to build
(`n - col`, so the loop guard `col < n` is `rem ≠ 0`).  A zero imaginary part
at `col` yields one real column and advances by 1; a nonzero imaginary part
requires a partner column (`assert!(col + 1 < n)`, i.e. `rem ≥ 2`; its
failure is the `none` outcome) and yields the pair
`Re[:,col] ± i·(±Re[:,col+1])`, the sign negated first when the
left-eigenvector pass was used (`conjLeft`), advancing by 2. -/
def reconAux (conjLeft : Bool) (n : Nat) (eigIm v : List ℚ) :
    Nat → Nat → Option (List (List Cx))
  | 0, _ => some []
  | rem + 1, col =>
    if eigIm.getD col 0 = 0 then
      (reconAux conjLeft n eigIm v rem (col + 1)).map fun rest =>
        ((colOf v n col).map fun re => Cx.mk re 0) :: rest
    else
      match rem with
      | 0 => none
      | rem' + 1 =>
        (reconAux conjLeft n eigIm v rem' (col + 2)).map fun rest =>
          ((List.range n).map fun row =>
            Cx.mk (v.getD (row + col * n) 0)
              (if conjLeft then -(v.getD (row + (col + 1) * n) 0)
               else v.getD (row + (col + 1) * n) 0)) ::
          ((List.range n).map fun row =>
            Cx.mk (v.getD (row + col * n) 0)
              (-(if conjLeft then -(v.getD (row + (col + 1) * n) 0)
                 else v.getD (row + (col + 1) * n) 0))) ::
          rest

/-- The real-scalar body of `Eig_::eig` (`src/lax/src/eig.rs` lines 122–268):
job flags by layout, probe and execute with status checks, eigenvalues as the
elementwise combination of the parallel real/imaginary arrays, early return
without eigenvectors when `calc_v` is false, otherwise reconstruction of the
packed `vr.or(vl)` block into complex columns.  `none` models a panic (the
`unwrap` on the eigenvector block or the `assert!` inside reconstruction). -/
def eigReal (k : KernelRe) (calc_v : Bool) (l : MatrixLayout) :
    Option (Except LapackError (List Cx × List Cx)) :=
  let flags := eigJobFlags calc_v l
  let jobvl := flags.1
  let jobvr := flags.2
  let n := (l.size).1.toNat
  match as_lapack_result k.probeInfo with
  | .error e => some (.error e)
  | .ok _ =>
    match as_lapack_result k.run.info with
    | .error e => some (.error e)
    | .ok _ =>
      let eigs := List.zipWith (fun re im => Cx.mk re im) k.run.eigRe k.run.eigIm
      if calc_v = false then some (.ok (eigs, []))
      else
        match (jobvr.calcThen k.run.vr).or (jobvl.calcThen k.run.vl) with
        | none => none
        | some v =>
          match reconAux jobvl.isCalc n k.run.eigIm v n 0 with
          | none => none
          | some cols => some (.ok (eigs, cols.flatten))

/-- The first column of a reconstructed conjugate pair starting at `col`:
entry `row` is `Re[row, col] + i·(±Re[row, col+1])`, the imaginary part
negated when the left-eigenvector pass was used. -/
def pairFirstCol (conjLeft : Bool) (n : Nat) (v : List ℚ) (col : Nat) : List Cx :=
  (List.range n).map fun row =>
    Cx.mk (v.getD (row + col * n) 0)
      (if conjLeft then -(v.getD (row + (col + 1) * n) 0)
       else v.getD (row + (col + 1) * n) 0)

/-- C2: at a scan position whose eigenvalue has nonzero imaginary part, the
reconstruction builds column `j` as `Re[:,j] + i·Re[:,j+1]` (imaginary sign
negated first on the left-eigenvector pass) and column `j+1` as its
elementwise complex conjugate, advancing the scan by 2; at a zero imaginary
part it builds one column with zero imaginary parts and advances by 1. -/
theorem C2_real_eigvec_pair_reconstruction (conjLeft : Bool) (n : Nat)
    (eigIm v : List ℚ) (rem col : Nat) :
    (eigIm.getD col 0 ≠ 0 →
      reconAux conjLeft n eigIm v (rem + 2) col =
        (reconAux conjLeft n eigIm v rem (col + 2)).map fun rest =>
          pairFirstCol conjLeft n v col ::
          (pairFirstCol conjLeft n v col).map Cx.conj :: rest) ∧
    (eigIm.getD col 0 = 0 →
      reconAux conjLeft n eigIm v (rem + 1) col =
        (reconAux conjLeft n eigIm v rem (col + 1)).map fun rest =>
          ((colOf v n col).map fun re => Cx.mk re 0) :: rest) := by
  constructor
  · intro h
    rw [reconAux.eq_def]
    simp only [if_neg h]
    congr 1
    funext rest
    simp only [pairFirstCol, List.map_map]
    rfl
  · intro h
    rw [reconAux.eq_def]
    simp only [if_pos h]

/-- Witness for C2 on a concrete conjugate pair and a concrete real column. -/
theorem C2_real_eigvec_pair_reconstruction_witness :
    (reconAux false 2 [1, -1] [1, 2, 3, 4] 2 0 =
      (reconAux false 2 [1, -1] [1, 2, 3, 4] 0 2).map fun rest =>
        pairFirstCol false 2 [1, 2, 3, 4] 0 ::
        (pairFirstCol false 2 [1, 2, 3, 4] 0).map Cx.conj :: rest) ∧
    (reconAux false 2 [0, 0] [1, 2, 3, 4] 1 0 =
      (reconAux false 2 [0, 0] [1, 2, 3, 4] 0 1).map fun rest =>
        ((colOf [1, 2, 3, 4] 2 0).map fun re => Cx.mk re 0) :: rest) :=
  ⟨(C2_real_eigvec_pair_reconstruction false 2 [1, -1] [1, 2, 3, 4] 0 0).1
      (by norm_num),
   (C2_real_eigvec_pair_reconstruction false 2 [0, 0] [1, 2, 3, 4] 0 0).2
      (by norm_num)⟩

/-- C7: every successful real-path result carries as eigenvalues exactly the
elementwise combination of the kernel's parallel real/imaginary arrays, in
kernel order, for every layout and `calc_v`. -/
theorem C7_real_eigenvalues_zip_unmodified (k : KernelRe) (calc_v : Bool)
    (l : MatrixLayout) (es vs : List Cx)
    (h : eigReal k calc_v l = some (.ok (es, vs))) :
    es = List.zipWith (fun re im => Cx.mk re im) k.run.eigRe k.run.eigIm := by
  unfold eigReal at h
  dsimp only at h
  split at h
  · exact absurd h (by simp)
  · split at h
    · exact absurd h (by simp)
    · split at h
      · simp only [Option.some.injEq, Except.ok.injEq, Prod.mk.injEq] at h
        exact h.1.symm
      · split at h
        · exact absurd h (by simp)
        · split at h
          · exact absurd h (by simp)
          · simp only [Option.some.injEq, Except.ok.injEq, Prod.mk.injEq] at h
            exact h.1.symm

/-- Witness for C7 at a concrete kernel outcome. -/
theorem C7_real_eigenvalues_zip_unmodified_witness :
    ([⟨1, 0⟩] : List Cx) =
      List.zipWith (fun re im => Cx.mk re im) [1] [0] :=
  C7_real_eigenvalues_zip_unmodified ⟨0, 1, ⟨[1], [0], [], [5], 0⟩⟩ true
    (.F 1 1) [⟨1, 0⟩] [⟨5, 0⟩] (by rfl)

theorem getD_of_drop_nil {l : List ℚ} {n : Nat} (h : l.drop n = []) :
    l.getD n 0 = 0 := by
  exact List.getD_eq_default _ _ (List.drop_eq_nil_iff.mp h)

theorem getD_of_drop_cons {l : List ℚ} {n : Nat} {x : ℚ} {t : List ℚ}
    (h : l.drop n = x :: t) : l.getD n 0 = x := by
  have h0 : (l.drop n)[0]? = some x := by rw [h]; simp
  rw [List.getElem?_drop] at h0
  simp only [Nat.add_zero] at h0
  simp [List.getD_eq_getElem?_getD, h0]

theorem drop_succ_of_drop_cons {l : List ℚ} {n : Nat} {x : ℚ} {t : List ℚ}
    (h : l.drop n = x :: t) : l.drop (n + 1) = t := by
  rw [← List.tail_drop, h]; rfl

/-- The kernel's documented conjugate-pair output contract on the imaginary
parts of the eigenvalue array: scanning left to right, every entry is either
zero (a real eigenvalue) or starts an adjacent conjugate pair whose partner
carries the negated imaginary part. -/
inductive ConjPairTail : List ℚ → Prop
  | nil : ConjPairTail []
  | real (l : List ℚ) : ConjPairTail l → ConjPairTail (0 :: l)
  | pair (x : ℚ) (l : List ℚ) : x ≠ 0 → ConjPairTail l →
      ConjPairTail (x :: -x :: l)

/-- Under the conjugate-pair contract on the portion of the imaginary array
still to be scanned, the reconstruction loop never hits the `assert!`. -/
theorem reconAux_isSome_of_ConjPairTail (conjLeft : Bool) (n : Nat)
    (eigIm v : List ℚ) :
    ∀ rem col, ConjPairTail ((eigIm.drop col).take rem) →
      (reconAux conjLeft n eigIm v rem col).isSome = true := by
  intro rem
  induction rem using Nat.strong_induction_on with
  | _ rem ih =>
    match rem with
    | 0 => intro col _; simp [reconAux]
    | rem + 1 =>
      intro col hc
      rcases hd : eigIm.drop col with _ | ⟨x, t⟩
      · have h0 : eigIm.getD col 0 = 0 := getD_of_drop_nil hd
        have hd1 : eigIm.drop (col + 1) = [] :=
          List.drop_eq_nil_iff.mpr
            (Nat.le_succ_of_le (List.drop_eq_nil_iff.mp hd))
        have hrec := ih rem (Nat.lt_succ_self rem) (col + 1)
          (by rw [hd1]; simp; exact .nil)
        rw [reconAux.eq_def]
        simp only [if_pos h0, Option.isSome_map']
        exact hrec
      · rw [hd, List.take_succ_cons] at hc
        have h0x : eigIm.getD col 0 = x := getD_of_drop_cons hd
        have hd1 : eigIm.drop (col + 1) = t := drop_succ_of_drop_cons hd
        by_cases hx : x = 0
        · subst hx
          have htail : ConjPairTail ((eigIm.drop (col + 1)).take rem) := by
            rw [hd1]
            generalize hg : List.take rem t = tk at hc ⊢
            cases hc with
            | real _ h => exact h
            | pair x l hx0 h => exact absurd rfl hx0
          have hrec := ih rem (Nat.lt_succ_self rem) (col + 1) htail
          rw [reconAux.eq_def]
          simp only [if_pos h0x, Option.isSome_map']
          exact hrec
        · generalize hg : List.take rem t = tk at hc
          cases hc with
          | real l h => exact absurd rfl hx
          | pair x' l hx0 h =>
            match rem, t, hg with
            | rem' + 1, y :: t', htk =>
              have htk' : y = -x ∧ List.take rem' t' = l := by
                rw [List.take_succ_cons] at htk
                exact ⟨(List.cons.inj htk).1, (List.cons.inj htk).2⟩
              have hd2 : eigIm.drop (col + 2) = t' := by
                have := drop_succ_of_drop_cons (l := eigIm) (n := col + 1)
                  (x := y) (t := t') (by rw [hd1])
                exact this
              have htail : ConjPairTail ((eigIm.drop (col + 2)).take rem') := by
                rw [hd2, htk'.2]; exact h
              have hrec := ih rem' (by omega) (col + 2) htail
              rw [reconAux.eq_def]
              simp only [if_neg (h0x ▸ hx), Option.isSome_map']
              exact hrec

/-- C8: a complex column visited at the last scan position (one column
remaining, so no partner `j+1 < n` exists) makes the reconstruction fail the
`assert!(col + 1 < n)` fatally (`none`, not a typed error); and under the
kernel's documented conjugate-pair output contract on the imaginary array,
the full reconstruction never fails the assertion. -/
theorem C8_partner_assertion (conjLeft : Bool) (n : Nat) (eigIm v : List ℚ) :
    (∀ col, eigIm.getD col 0 ≠ 0 →
      reconAux conjLeft n eigIm v 1 col = none) ∧
    (ConjPairTail (eigIm.take n) →
      (reconAux conjLeft n eigIm v n 0).isSome = true) := by
  constructor
  · intro col h
    rw [reconAux.eq_def]
    simp only [if_neg h]
  · intro hc
    exact reconAux_isSome_of_ConjPairTail conjLeft n eigIm v n 0
      (by simpa using hc)

/-- Witness for C8: a lone complex column panics; a well-paired imaginary
array reconstructs successfully. -/
theorem C8_partner_assertion_witness :
    reconAux false 2 [0, 5] [1, 2, 3, 4] 1 1 = none ∧
    (reconAux false 2 [1, -1] [1, 2, 3, 4] 2 0).isSome = true :=
  ⟨(C8_partner_assertion false 2 [0, 5] [1, 2, 3, 4]).1 1 (by norm_num),
   (C8_partner_assertion false 2 [1, -1] [1, 2, 3, 4]).2
     (ConjPairTail.pair 1 [] one_ne_zero ConjPairTail.nil)⟩

/-- Modelled from the spec: `transpose` in `layout.rs` (not under `src/`):
materialize a row-major buffer's logical `m × n` matrix into a freshly
allocated column-major buffer (physical copy), returning the column-major
layout of the same `(m, n)` matrix; a column-major buffer is returned
unchanged with its layout.  With `m = row` and `n = lda`, output element
`i + j * m` is input element `i * n + j`. -/
def transpose {α : Type} [Inhabited α] (l : MatrixLayout) (v : List α) :
    MatrixLayout × List α :=
  match l with
  | .C row lda =>
    let m := row.toNat
    let n := lda.toNat
    (.F lda row,
      (List.range (m * n)).map fun j => v.getD ((j % m) * n + j / m) default)
  | .F col lda => (.F col lda, v)

/-- Modelled from the spec: `transpose_over` in `layout.rs` (not under
`src/`): copy the source buffer, described by `l`, into the opposite-majorness
representation of the same logical matrix (used after the kernel call to put
the solution back into the caller's original storage). -/
def transpose_over {α : Type} [Inhabited α] (l : MatrixLayout) (src : List α) :
    List α :=
  match l with
  | .F col lda =>
    let m := lda.toNat
    let n := col.toNat
    (List.range (m * n)).map fun j => src.getD ((j % n) * m + j / n) default
  | .C row lda =>
    let m := row.toNat
    let n := lda.toNat
    (List.range (m * n)).map fun j => src.getD ((j % m) * n + j / m) default

/-- `LeastSquaresWork` (`src/lax/src/least_squares.rs` lines 23–30): the two
layouts plus the negotiated scratch buffers.  The buffers are logically
uninitialized until the kernel writes them, so only their lengths are
modelled; `rwork_len` is `none` exactly when no real scratch was allocated. -/
structure LeastSquaresWork where
  a_layout : MatrixLayout
  b_layout : MatrixLayout
  singular_values_len : Nat
  work_len : Nat
  iwork_len : Nat
  rwork_len : Option Nat
  deriving DecidableEq, Repr

/-- Workspace-probe outputs of one `zgelsd_`/`cgelsd_` call with `lwork = -1`:
primary, integer and real scratch sizes, plus the status code — all from the
same single invocation. -/
structure GelsdProbeCx where
  lwork : Nat
  liwork : Nat
  lrwork : Nat
  info : Int

/-- Workspace-probe outputs of one `dgelsd_`/`sgelsd_` call with `lwork = -1`:
primary and integer scratch sizes plus the status code (the real path has no
real-scratch output). -/
structure GelsdProbeRe where
  lwork : Nat
  liwork : Nat
  info : Int

/-- `LeastSquaresWorkImpl::new`, complex impl (`src/lax/src/least_squares.rs`
lines 52–104): `assert!(m_ >= m)`, probe once, check status, then allocate
the `work`, `iwork` and `rwork` buffers at the three sizes the single probe
reported.  `none` models the assertion panic. -/
def lsNewCx (probe : GelsdProbeCx) (a_layout b_layout : MatrixLayout) :
    Option (Except LapackError LeastSquaresWork) :=
  let m := (a_layout.size).1
  let n := (a_layout.size).2
  let m_ := (b_layout.size).1
  let k := min m n
  if m_ ≥ m then
    match as_lapack_result probe.info with
    | .error e => some (.error e)
    | .ok _ => some (.ok ⟨a_layout, b_layout, k.toNat, probe.lwork,
        probe.liwork, some probe.lrwork⟩)
  else none

/-- `LeastSquaresWorkImpl::new`, real impl (`src/lax/src/least_squares.rs`
lines 201–248): as the complex impl but the probe reports only two scratch
sizes and no real scratch is allocated (`rwork: None`). -/
def lsNewRe (probe : GelsdProbeRe) (a_layout b_layout : MatrixLayout) :
    Option (Except LapackError LeastSquaresWork) :=
  let m := (a_layout.size).1
  let n := (a_layout.size).2
  let m_ := (b_layout.size).1
  let k := min m n
  if m_ ≥ m then
    match as_lapack_result probe.info with
    | .error e => some (.error e)
    | .ok _ => some (.ok ⟨a_layout, b_layout, k.toNat, probe.lwork,
        probe.liwork, none⟩)
  else none

/-- Outputs one `*gelsd_` execution call writes: the destroyed coefficient
buffer, the solution-holding right-hand-side buffer, the singular values, the
estimated rank and the status code. -/
structure GelsdOut (α : Type) where
  aOut : List α
  bOut : List α
  sv : List ℚ
  rank : Int
  info : Int

/-- Result of `LeastSquaresWorkImpl::calc`, together with the final contents
of the caller's two buffers (mutated in place by the Rust code). -/
structure LsCalcOut (α : Type) where
  singular_values : List ℚ
  rank : Int
  aFinal : List α
  bFinal : List α

/-- `LeastSquaresWorkImpl::calc` (`src/lax/src/least_squares.rs` lines
106–176 complex, 251–320 real; the two bodies' layout/transpose logic is
textually identical): `assert!(m_ >= m)`; transpose `A` into a fresh
column-major buffer when its layout is row-major, else pass it through, and
likewise `B`; invoke the kernel on the resulting buffers; check status; then,
when `B` was transposed going in, transpose the solution-holding buffer back
into the caller's original row-major storage, while `A`'s transposed copy is
dropped without a back-transpose (the kernel destroyed it) so a row-major
caller's `A` buffer is left untouched. -/
def lsCalc {α : Type} [Inhabited α] (w : LeastSquaresWork) (a b : List α)
    (kernel : List α → List α → GelsdOut α) :
    Option (Except LapackError (LsCalcOut α)) :=
  let m := (w.a_layout.size).1
  let m_ := (w.b_layout.size).1
  if m_ ≥ m then
    let a_t : Option (List α) :=
      match w.a_layout with
      | .C _ _ => some (transpose w.a_layout a).2
      | .F _ _ => none
    let bt : Option (MatrixLayout × List α) :=
      match w.b_layout with
      | .C _ _ => some (transpose w.b_layout b)
      | .F _ _ => none
    let k := kernel (a_t.getD a) ((bt.map Prod.snd).getD b)
    match as_lapack_result k.info with
    | .error e => some (.error e)
    | .ok _ =>
      let bFinal : List α :=
        match bt with
        | some p => transpose_over p.1 k.bOut
        | none => k.bOut
      let aFinal : List α :=
        match w.a_layout with
        | .C _ _ => a
        | .F _ _ => k.aOut
      some (.ok ⟨k.sv, k.rank, aFinal, bFinal⟩)
  else none

/-- `Lapack::least_squares_nrhs` (`src/lax/src/lib.rs` lines 313–322) on the
complex-scalar path: construct the workspace (one probe, then allocation),
then evaluate `calc` on the two buffers. -/
def least_squares_nrhsCx {α : Type} [Inhabited α] (probe : GelsdProbeCx)
    (kernel : List α → List α → GelsdOut α) (a_layout : MatrixLayout)
    (a : List α) (b_layout : MatrixLayout) (b : List α) :
    Option (Except LapackError (LsCalcOut α)) :=
  match lsNewCx probe a_layout b_layout with
  | none => none
  | some (.error e) => some (.error e)
  | some (.ok w) => lsCalc w a b kernel

/-- `Lapack::least_squares_nrhs` (`src/lax/src/lib.rs` lines 313–322) on the
real-scalar path. -/
def least_squares_nrhsRe {α : Type} [Inhabited α] (probe : GelsdProbeRe)
    (kernel : List α → List α → GelsdOut α) (a_layout : MatrixLayout)
    (a : List α) (b_layout : MatrixLayout) (b : List α) :
    Option (Except LapackError (LsCalcOut α)) :=
  match lsNewRe probe a_layout b_layout with
  | none => none
  | some (.error e) => some (.error e)
  | some (.ok w) => lsCalc w a b kernel

/-- `Lapack::least_squares` (`src/lax/src/lib.rs` lines 304–311),
complex-scalar path: take `B`'s layout to be `A`'s layout resized to
`b.len()` rows and one column, and delegate to `least_squares_nrhs`. -/
def least_squaresCx {α : Type} [Inhabited α] (probe : GelsdProbeCx)
    (kernel : List α → List α → GelsdOut α) (l : MatrixLayout)
    (a b : List α) : Option (Except LapackError (LsCalcOut α)) :=
  least_squares_nrhsCx probe kernel l a (l.resized (b.length : Int) 1) b

/-- `Lapack::least_squares` (`src/lax/src/lib.rs` lines 304–311),
real-scalar path. -/
def least_squaresRe {α : Type} [Inhabited α] (probe : GelsdProbeRe)
    (kernel : List α → List α → GelsdOut α) (l : MatrixLayout)
    (a b : List α) : Option (Except LapackError (LsCalcOut α)) :=
  least_squares_nrhsRe probe kernel l a (l.resized (b.length : Int) 1) b

/-- C6: when the assertion passes and the single probe reports success, both
workspace constructors allocate every scratch buffer at exactly the sizes
that one probe reported — primary, integer and (complex path only) real —
and the real path allocates no real scratch at all. -/
theorem C6_scratch_sizes_from_one_probe :
    (∀ (probe : GelsdProbeCx) (al bl : MatrixLayout),
      (bl.size).1 ≥ (al.size).1 → probe.info = 0 →
      lsNewCx probe al bl = some (.ok ⟨al, bl,
        (min (al.size).1 (al.size).2).toNat, probe.lwork, probe.liwork,
        some probe.lrwork⟩)) ∧
    (∀ (probe : GelsdProbeRe) (al bl : MatrixLayout),
      (bl.size).1 ≥ (al.size).1 → probe.info = 0 →
      lsNewRe probe al bl = some (.ok ⟨al, bl,
        (min (al.size).1 (al.size).2).toNat, probe.lwork, probe.liwork,
        none⟩)) := by
  constructor
  · intro probe al bl hm hi
    simp [lsNewCx, as_lapack_result, hm, hi]
  · intro probe al bl hm hi
    simp [lsNewRe, as_lapack_result, hm, hi]

/-- Witness for C6 at concrete probes and layouts. -/
theorem C6_scratch_sizes_from_one_probe_witness :
    lsNewCx ⟨7, 3, 9, 0⟩ (.F 2 3) (.C 3 1) =
      some (.ok ⟨.F 2 3, .C 3 1, 2, 7, 3, some 9⟩) ∧
    lsNewRe ⟨7, 3, 0⟩ (.F 2 3) (.C 3 1) =
      some (.ok ⟨.F 2 3, .C 3 1, 2, 7, 3, none⟩) :=
  ⟨C6_scratch_sizes_from_one_probe.1 ⟨7, 3, 9, 0⟩ (.F 2 3) (.C 3 1)
     (by decide) rfl,
   C6_scratch_sizes_from_one_probe.2 ⟨7, 3, 0⟩ (.F 2 3) (.C 3 1)
     (by decide) rfl⟩

/-- C9: the row-count precondition `m_ ≥ m` (not `m_ = m`) is enforced by an
assertion at workspace construction and again at every `calc` call; a
violation is a panic (`none`), never a typed error, and whenever `m_ ≥ m`
holds — including `m_ > m` — neither assertion panics. -/
theorem C9_row_count_assertions :
    (∀ (probe : GelsdProbeCx) (al bl : MatrixLayout),
      (bl.size).1 < (al.size).1 → lsNewCx probe al bl = none) ∧
    (∀ (probe : GelsdProbeRe) (al bl : MatrixLayout),
      (bl.size).1 < (al.size).1 → lsNewRe probe al bl = none) ∧
    (∀ (w : LeastSquaresWork) (a b : List ℚ)
      (kernel : List ℚ → List ℚ → GelsdOut ℚ),
      (w.b_layout.size).1 < (w.a_layout.size).1 →
      lsCalc w a b kernel = none) ∧
    (∀ (probe : GelsdProbeCx) (al bl : MatrixLayout),
      (bl.size).1 ≥ (al.size).1 → lsNewCx probe al bl ≠ none) ∧
    (∀ (w : LeastSquaresWork) (a b : List ℚ)
      (kernel : List ℚ → List ℚ → GelsdOut ℚ),
      (w.b_layout.size).1 ≥ (w.a_layout.size).1 →
      lsCalc w a b kernel ≠ none) := by
  refine ⟨?_, ?_, ?_, ?_, ?_⟩
  · intro probe al bl hm
    simp [lsNewCx, if_neg (not_le.mpr hm)]
  · intro probe al bl hm
    simp [lsNewRe, if_neg (not_le.mpr hm)]
  · intro w a b kernel hm
    simp [lsCalc, if_neg (not_le.mpr hm)]
  · intro probe al bl hm
    unfold lsNewCx
    cases as_lapack_result probe.info <;> simp [hm]
  · intro w a b kernel hm hcontra
    unfold lsCalc at hcontra
    simp only [if_pos hm] at hcontra
    split at hcontra <;> simp_all

/-- Witness for C9: an assertion violation panics at both construction and
`calc`; `m_ > m` passes both. -/
theorem C9_row_count_assertions_witness :
    lsNewCx ⟨7, 3, 9, 0⟩ (.F 2 3) (.C 2 1) = none ∧
    lsNewRe ⟨7, 3, 0⟩ (.F 2 3) (.C 2 1) = none ∧
    lsCalc ⟨.F 2 3, .C 2 1, 2, 7, 3, none⟩ ([] : List ℚ) []
      (fun x y => ⟨x, y, [], 0, 0⟩) = none ∧
    lsNewCx ⟨7, 3, 9, 0⟩ (.F 2 3) (.C 4 1) ≠ none ∧
    lsCalc ⟨.F 2 3, .C 4 1, 2, 7, 3, none⟩ ([] : List ℚ) []
      (fun x y => ⟨x, y, [], 0, 0⟩) ≠ none :=
  ⟨C9_row_count_assertions.1 ⟨7, 3, 9, 0⟩ (.F 2 3) (.C 2 1) (by decide),
   C9_row_count_assertions.2.1 ⟨7, 3, 0⟩ (.F 2 3) (.C 2 1) (by decide),
   C9_row_count_assertions.2.2.1 ⟨.F 2 3, .C 2 1, 2, 7, 3, none⟩ [] []
     (fun x y => ⟨x, y, [], 0, 0⟩) (by decide),
   C9_row_count_assertions.2.2.2.1 ⟨7, 3, 9, 0⟩ (.F 2 3) (.C 4 1) (by decide),
   C9_row_count_assertions.2.2.2.2 ⟨.F 2 3, .C 4 1, 2, 7, 3, none⟩ [] []
     (fun x y => ⟨x, y, [], 0, 0⟩) (by decide)⟩

theorem getD_range_map {β : Type} (f : Nat → β) (N k : Nat) (d : β)
    (h : k < N) : ((List.range N).map f).getD k d = f k := by
  simp [List.getD_eq_getElem?_getD, List.getElem?_range, h]

/-- C4: `calc`'s layout policy.  A row-major buffer (`A` or `B`) is
physically transposed into the freshly allocated column-major copy handed to
the kernel, while a column-major buffer is handed through unchanged; after a
successful kernel call, a transposed-in `B` is transposed back into the
caller's row-major storage (elementwise, entry `(i, j)` of the row-major
result is entry `(i, j)` of the kernel's column-major output), whereas `A`'s
transposed copy is discarded without a back-transpose, leaving a row-major
caller's `A` buffer untouched. -/
theorem C4_least_squares_transpose_policy :
    (∀ (ar alda br blda : Int) (svl wl il : Nat) (rw : Option Nat)
      (a b : List ℚ) (kernel : List ℚ → List ℚ → GelsdOut ℚ),
      br ≥ ar →
      lsCalc ⟨.C ar alda, .C br blda, svl, wl, il, rw⟩ a b kernel =
        (let k := kernel (transpose (.C ar alda) a).2 (transpose (.C br blda) b).2
         match as_lapack_result k.info with
         | .error e => some (.error e)
         | .ok _ => some (.ok ⟨k.sv, k.rank, a,
             transpose_over (transpose (MatrixLayout.C br blda) b).1 k.bOut⟩))) ∧
    (∀ (acol alda bcol blda : Int) (svl wl il : Nat) (rw : Option Nat)
      (a b : List ℚ) (kernel : List ℚ → List ℚ → GelsdOut ℚ),
      blda ≥ alda →
      lsCalc ⟨.F acol alda, .F bcol blda, svl, wl, il, rw⟩ a b kernel =
        (let k := kernel a b
         match as_lapack_result k.info with
         | .error e => some (.error e)
         | .ok _ => some (.ok ⟨k.sv, k.rank, k.aOut, k.bOut⟩))) ∧
    (∀ (ar alda bcol blda : Int) (svl wl il : Nat) (rw : Option Nat)
      (a b : List ℚ) (kernel : List ℚ → List ℚ → GelsdOut ℚ),
      blda ≥ ar →
      lsCalc ⟨.C ar alda, .F bcol blda, svl, wl, il, rw⟩ a b kernel =
        (let k := kernel (transpose (.C ar alda) a).2 b
         match as_lapack_result k.info with
         | .error e => some (.error e)
         | .ok _ => some (.ok ⟨k.sv, k.rank, a, k.bOut⟩))) ∧
    (∀ (acol alda br blda : Int) (svl wl il : Nat) (rw : Option Nat)
      (a b : List ℚ) (kernel : List ℚ → List ℚ → GelsdOut ℚ),
      br ≥ alda →
      lsCalc ⟨.F acol alda, .C br blda, svl, wl, il, rw⟩ a b kernel =
        (let k := kernel a (transpose (.C br blda) b).2
         match as_lapack_result k.info with
         | .error e => some (.error e)
         | .ok _ => some (.ok ⟨k.sv, k.rank, k.aOut,
             transpose_over (transpose (MatrixLayout.C br blda) b).1 k.bOut⟩))) ∧
    (∀ (br blda : Int) (src : List ℚ) (i j : Nat),
      i < br.toNat → j < blda.toNat →
      (transpose_over (transpose (MatrixLayout.C br blda) src).1 src).getD
          (i * blda.toNat + j) 0 =
        src.getD (i + j * br.toNat) 0) := by
  refine ⟨?_, ?_, ?_, ?_, ?_⟩
  · intro ar alda br blda svl wl il rw a b kernel hm
    simp only [lsCalc, MatrixLayout.size, if_pos hm, Option.map_some',
      Option.getD_some, Option.map_none', Option.getD_none]
  · intro acol alda bcol blda svl wl il rw a b kernel hm
    simp only [lsCalc, MatrixLayout.size, if_pos hm, Option.map_some',
      Option.getD_some, Option.map_none', Option.getD_none]
  · intro ar alda bcol blda svl wl il rw a b kernel hm
    simp only [lsCalc, MatrixLayout.size, if_pos hm, Option.map_some',
      Option.getD_some, Option.map_none', Option.getD_none]
  · intro acol alda br blda svl wl il rw a b kernel hm
    simp only [lsCalc, MatrixLayout.size, if_pos hm, Option.map_some',
      Option.getD_some, Option.map_none', Option.getD_none]
  · intro br blda src i j hi hj
    have hn : 0 < blda.toNat := Nat.pos_of_ne_zero (by omega)
    have hk : i * blda.toNat + j < br.toNat * blda.toNat := by
      calc i * blda.toNat + j < i * blda.toNat + blda.toNat := by omega
        _ = (i + 1) * blda.toNat := by ring
        _ ≤ br.toNat * blda.toNat := Nat.mul_le_mul_right _ hi
    show (transpose_over (MatrixLayout.F blda br) src).getD _ 0 = _
    simp only [transpose_over]
    rw [getD_range_map _ _ _ _ hk]
    have hrw : (i * blda.toNat + j) % blda.toNat = j := by
      rw [Nat.mul_comm, Nat.mul_add_mod, Nat.mod_eq_of_lt hj]
    have hdv : (i * blda.toNat + j) / blda.toNat = i := by
      rw [Nat.mul_comm, Nat.mul_add_div hn, Nat.div_eq_of_lt hj, Nat.add_zero]
    rw [hrw, hdv, Nat.add_comm (j * br.toNat) i]
    rfl

/-- Witness for C4: the row-major/row-major policy at a concrete call, and the
entrywise back-transpose at a concrete index. -/
theorem C4_least_squares_transpose_policy_witness :
    (lsCalc ⟨.C 1 1, .C 1 1, 0, 0, 0, none⟩ [2] [3]
        (fun x y => ⟨x, y, [7], 1, 0⟩) =
      (let k := (fun (x y : List ℚ) => GelsdOut.mk x y [7] 1 0)
          (transpose (MatrixLayout.C 1 1) [2]).2
          (transpose (MatrixLayout.C 1 1) [3]).2
       match as_lapack_result k.info with
       | .error e => some (.error e)
       | .ok _ => some (.ok ⟨k.sv, k.rank, [2],
           transpose_over (transpose (MatrixLayout.C 1 1) [3]).1 k.bOut⟩))) ∧
    (transpose_over (transpose (MatrixLayout.C 2 2) [1, 2, 3, 4]).1
        [1, 2, 3, 4]).getD (1 * (2 : Int).toNat + 0) 0 =
      ([1, 2, 3, 4] : List ℚ).getD (1 + 0 * (2 : Int).toNat) 0 :=
  ⟨C4_least_squares_transpose_policy.1 1 1 1 1 0 0 0 none [2] [3]
     (fun x y => ⟨x, y, [7], 1, 0⟩) (by decide),
   C4_least_squares_transpose_policy.2.2.2.2 2 2 [1, 2, 3, 4] 1 0
     (by decide) (by decide)⟩

theorem resized_row_col (l : MatrixLayout) (r c : Int) :
    ((l.resized r c).size).1 = r ∧ ((l.resized r c).size).2 = c ∧
      (l.resized r c).isC = l.isC := by
  cases l <;> simp [MatrixLayout.resized, MatrixLayout.size, MatrixLayout.isC]

/-- C10: the single-right-hand-side entry point takes `B`'s layout to be
`A`'s layout resized to `b.len()` rows and one column — preserving `A`'s
majorness — and delegates to `least_squares_nrhs` (on both scalar paths);
consequently any slice `b` is accepted as a `b.len() × 1` matrix, and the
only guard against a mismatched `b` length is the workspace assertion:
the call panics exactly when `b.len() < m`, with no independent
`b.len() = m` check. -/
theorem C10_single_rhs_resizes_a_layout :
    (∀ (probe : GelsdProbeCx) (kernel : List ℚ → List ℚ → GelsdOut ℚ)
      (l : MatrixLayout) (a b : List ℚ),
      least_squaresCx probe kernel l a b =
        least_squares_nrhsCx probe kernel l a
          (l.resized (b.length : Int) 1) b) ∧
    (∀ (probe : GelsdProbeRe) (kernel : List ℚ → List ℚ → GelsdOut ℚ)
      (l : MatrixLayout) (a b : List ℚ),
      least_squaresRe probe kernel l a b =
        least_squares_nrhsRe probe kernel l a
          (l.resized (b.length : Int) 1) b) ∧
    (∀ (l : MatrixLayout) (b : List ℚ),
      ((l.resized (b.length : Int) 1).size = ((b.length : Int), 1) ∧
       (l.resized (b.length : Int) 1).isC = l.isC)) ∧
    (∀ (probe : GelsdProbeCx) (kernel : List ℚ → List ℚ → GelsdOut ℚ)
      (l : MatrixLayout) (a b : List ℚ),
      (least_squaresCx probe kernel l a b = none ↔
        (b.length : Int) < (l.size).1)) := by
  refine ⟨fun _ _ _ _ _ => rfl, fun _ _ _ _ _ => rfl, ?_, ?_⟩
  · intro l b
    rcases resized_row_col l (b.length : Int) 1 with ⟨h1, h2, h3⟩
    exact ⟨Prod.ext h1 h2, h3⟩
  · intro probe kernel l a b
    have hrow : ((l.resized (b.length : Int) 1).size).1 = (b.length : Int) :=
      (resized_row_col l (b.length : Int) 1).1
    unfold least_squaresCx least_squares_nrhsCx
    by_cases hlt : (b.length : Int) < (l.size).1
    · have hnot : ¬ ((l.resized (b.length : Int) 1).size).1 ≥ (l.size).1 := by
        rw [hrow]; exact not_le.mpr hlt
      simp [lsNewCx, if_neg hnot, hlt]
    · have hge : ((l.resized (b.length : Int) 1).size).1 ≥ (l.size).1 := by
        rw [hrow]; exact not_lt.mp hlt
      constructor
      · intro hnone
        exfalso
        unfold lsNewCx at hnone
        rw [if_pos hge] at hnone
        rcases hsr : as_lapack_result probe.info with e | u
        · rw [hsr] at hnone; simp at hnone
        · rw [hsr] at hnone
          simp only at hnone
          unfold lsCalc at hnone
          simp only [if_pos hge] at hnone
          repeat' split at hnone
          all_goals simp_all
      · intro hcontra
        exact absurd hcontra (not_lt.mpr (not_lt.mp hlt))

/-- C5: status `0` is success, status `< 0` an invalid-argument failure at
the negated argument position, and status `> 0` a typed computational
failure carrying the code; a probe failure is returned to the caller
unchanged with the execution call's outputs irrelevant (never consulted, so
certainly never retried), and an execution failure is likewise returned
unchanged — on the eigenvalue paths and the least-squares path alike. -/
theorem C5_status_codes_and_propagation :
    (∀ info : Int,
      (info = 0 → as_lapack_result info = .ok ()) ∧
      (info < 0 → as_lapack_result info = .error (.invalidValue (-info))) ∧
      (0 < info → as_lapack_result info = .error (.computationalFailure info))) ∧
    (∀ (pinf : Int) (lw : Nat) (r r' : GeevCxOut) (cv : Bool)
      (l : MatrixLayout) (e : LapackError),
      as_lapack_result pinf = .error e →
      eigComplex ⟨pinf, lw, r⟩ cv l = .error e ∧
      eigComplex ⟨pinf, lw, r⟩ cv l = eigComplex ⟨pinf, lw, r'⟩ cv l) ∧
    (∀ (k : KernelCx) (cv : Bool) (l : MatrixLayout) (e : LapackError),
      k.probeInfo = 0 → as_lapack_result k.run.info = .error e →
      eigComplex k cv l = .error e) ∧
    (∀ (pinf : Int) (lw : Nat) (r r' : GeevReOut) (cv : Bool)
      (l : MatrixLayout) (e : LapackError),
      as_lapack_result pinf = .error e →
      eigReal ⟨pinf, lw, r⟩ cv l = some (.error e) ∧
      eigReal ⟨pinf, lw, r⟩ cv l = eigReal ⟨pinf, lw, r'⟩ cv l) ∧
    (∀ (probe : GelsdProbeCx) (al bl : MatrixLayout) (a b : List ℚ)
      (kernel kernel' : List ℚ → List ℚ → GelsdOut ℚ) (e : LapackError),
      (bl.size).1 ≥ (al.size).1 → as_lapack_result probe.info = .error e →
      least_squares_nrhsCx probe kernel al a bl b = some (.error e) ∧
      least_squares_nrhsCx probe kernel al a bl b =
        least_squares_nrhsCx probe kernel' al a bl b) ∧
    (∀ (w : LeastSquaresWork) (a b : List ℚ)
      (kernel : List ℚ → List ℚ → GelsdOut ℚ) (e : LapackError),
      (w.b_layout.size).1 ≥ (w.a_layout.size).1 →
      (∀ x y, as_lapack_result (kernel x y).info = .error e) →
      lsCalc w a b kernel = some (.error e)) := by
  refine ⟨?_, ?_, ?_, ?_, ?_, ?_⟩
  · intro info
    refine ⟨fun h => ?_, fun h => ?_, fun h => ?_⟩
    · simp [as_lapack_result, h]
    · simp [as_lapack_result, h, ne_of_lt h]
    · have h0 : ¬ info = 0 := by omega
      have hneg : ¬ info < 0 := by omega
      simp [as_lapack_result, h0, hneg]
  · intro pinf lw r r' cv l e he
    constructor <;> · unfold eigComplex; rw [he]
  · intro k cv l e hp he
    unfold eigComplex
    have hok : as_lapack_result k.probeInfo = .ok () := by
      simp [as_lapack_result, hp]
    rw [hok, he]
  · intro pinf lw r r' cv l e he
    constructor <;> · unfold eigReal; rw [he]
  · intro probe al bl a b kernel kernel' e hm he
    constructor <;>
      · unfold least_squares_nrhsCx lsNewCx
        rw [if_pos hm, he]
  · intro w a b kernel e hm he
    unfold lsCalc
    simp only [if_pos hm, he]

/-- Witness for C5, exercising every branch of the classification and each
propagation clause at concrete status codes. -/
theorem C5_status_codes_and_propagation_witness :
    as_lapack_result 0 = .ok () ∧
    as_lapack_result (-3) = .error (.invalidValue 3) ∧
    as_lapack_result 2 = .error (.computationalFailure 2) ∧
    eigComplex ⟨-3, 1, ⟨[], [], [], 0⟩⟩ true (.C 1 1) =
      .error (.invalidValue 3) ∧
    eigComplex ⟨0, 1, ⟨[], [], [], 2⟩⟩ true (.C 1 1) =
      .error (.computationalFailure 2) ∧
    eigReal ⟨-3, 1, ⟨[], [], [], [], 0⟩⟩ true (.C 1 1) =
      some (.error (.invalidValue 3)) ∧
    least_squares_nrhsCx ⟨1, 1, 1, -3⟩ (fun x y => ⟨x, y, [], 0, 0⟩)
      (.F 1 1) ([] : List ℚ) (.F 1 1) [] = some (.error (.invalidValue 3)) ∧
    lsCalc ⟨.F 1 1, .F 1 1, 1, 1, 1, none⟩ ([] : List ℚ) []
      (fun x y => ⟨x, y, [], 0, 2⟩) =
      some (.error (.computationalFailure 2)) := by
  refine ⟨(C5_status_codes_and_propagation.1 0).1 rfl,
    (C5_status_codes_and_propagation.1 (-3)).2.1 (by decide),
    (C5_status_codes_and_propagation.1 2).2.2 (by decide),
    (C5_status_codes_and_propagation.2.1 (-3) 1 ⟨[], [], [], 0⟩ ⟨[], [], [], 0⟩
      true (.C 1 1) (.invalidValue 3) (by norm_num [as_lapack_result])).1,
    C5_status_codes_and_propagation.2.2.1 ⟨0, 1, ⟨[], [], [], 2⟩⟩ true (.C 1 1)
      (.computationalFailure 2) rfl rfl,
    (C5_status_codes_and_propagation.2.2.2.1 (-3) 1 ⟨[], [], [], [], 0⟩
      ⟨[], [], [], [], 0⟩ true (.C 1 1) (.invalidValue 3)
      (by norm_num [as_lapack_result])).1,
    (C5_status_codes_and_propagation.2.2.2.2.1 ⟨1, 1, 1, -3⟩ (.F 1 1) (.F 1 1)
      [] [] (fun x y => ⟨x, y, [], 0, 0⟩) (fun x y => ⟨x, y, [], 0, 0⟩)
      (.invalidValue 3) (by decide) (by norm_num [as_lapack_result])).1,
    C5_status_codes_and_propagation.2.2.2.2.2 ⟨.F 1 1, .F 1 1, 1, 1, 1, none⟩
      [] [] (fun x y => ⟨x, y, [], 0, 2⟩) (.computationalFailure 2)
      (by decide) (fun x y => rfl)⟩

end Lax
